import Mathlib

/-!
Verification development for the rt1 repository (first-order radiative
transfer).  The Python sources (rt1.py, scatter.py, volume.py) are shallowly
embedded below: the sympy expressions manipulated by volume.py are modelled
by the inductive AST `SymExpr`, Python floats are modelled as exact rationals
(their decimal literals) where only algebraic identities are at stake, and
numeric (numpy) computations are modelled over the reals.  Fallible Python
code (assert statements, NameError / AttributeError on unbound names) is
modelled with `Except String`.
-/

/-- AST of the sympy expressions built by volume.py.  Constructors mirror the
sympy constructors that actually occur in the source: symbols, numeric
literals (Python float literals, modelled as the exact rationals they denote),
pi, arithmetic, sin/cos, `sp.legendre`, `sp.KroneckerDelta` and an unevaluated
`sp.Sum` with an integer summation range. -/
inductive SymExpr where
  | sym (name : String)
  | num (q : ℚ)
  | pi
  | add (a b : SymExpr)
  | sub (a b : SymExpr)
  | mul (a b : SymExpr)
  | div (a b : SymExpr)
  | pow (a b : SymExpr)
  | sin (a : SymExpr)
  | cos (a : SymExpr)
  | legendreP (n x : SymExpr)
  | kroneckerDelta (a b : SymExpr)
  | sum (body : SymExpr) (idx : String) (lo hi : ℤ)
deriving DecidableEq, Repr

/-- Modelled from the spec: `scat_angle` is called by `Volume.legexpansion`
and by the `_set_function` methods in volume.py but is defined in a part of
the repository that is not under src/ (scatter.py only has the special cases
`thetaBRDF` and `thetap`).  Spec section 4.1: scatAngle(theta_0, theta_ex,
phi_0, phi_ex, a) = a0*cos(theta_0)*cos(theta_ex)
 + a1*sin(theta_0)*sin(theta_ex)*cos(phi_0)*cos(phi_ex)
 + a2*sin(theta_0)*sin(theta_ex)*sin(phi_0)*sin(phi_ex). -/
def scat_angle (t0 tex p0 pex : SymExpr) (a : ℚ × ℚ × ℚ) : SymExpr :=
  .add
    (.add
      (.mul (.num a.1) (.mul (.cos t0) (.cos tex)))
      (.mul (.num a.2.1)
        (.mul (.sin t0) (.mul (.sin tex) (.mul (.cos p0) (.cos pex))))))
    (.mul (.num a.2.2)
      (.mul (.sin t0) (.mul (.sin tex) (.mul (.sin p0) (.sin pex)))))

/-- State of a Volume-class object (volume.py).  `omega`/`tau` are the
attributes popped in `Volume.__init__` (None when absent), `a` the
generalized scattering-angle triple, `ncoefs` the number of Legendre
coefficients, `legcoefs` the sympy closed form in the symbol n, and `func`
the `_func` sympy expression in theta_0, theta_ex, phi_0, phi_ex. -/
structure Vol where
  omega : Option ℚ
  tau : Option ℚ
  a : ℚ × ℚ × ℚ
  ncoefs : ℕ
  legcoefs : SymExpr
  func : SymExpr
deriving DecidableEq, Repr

/-- Valid fixed/variable markers for one angle slot of the geometry string
(the characters f and v of volume.py lines 124-150; any other character
raises AssertionError and is outside this type). -/
inductive AngleMode where
  | f
  | v
deriving DecidableEq, Repr

/-- A valid geometry argument of `Volume.legexpansion`: the string mono, or a
4-character fixed/variable mask for (t_0, t_ex, p_0, p_ex). -/
inductive Geometry where
  | mono
  | mask (g0 g1 g2 g3 : AngleMode)
deriving DecidableEq, Repr

/-- Embedding of `Volume.legexpansion` (volume.py lines 60-153).
The first statement is the assert on `self.ncoefs > 0` (line 61).  The
branches on the geometry argument (lines 118-150) pick either the sympy
symbol or the numeric argument for theta_0 and phi_0.  The assignments to
theta_ex and phi_ex made by the same branches (mono: theta_ex = theta_0,
phi_ex = p_0 + pi) are omitted here because the returned expression
(line 153) only mentions theta_0, theta_s, phi_0 and phi_s: theta_ex and
phi_ex are dead local variables of the source.  Line 153 returns the
unevaluated sp.Sum (the `.doit()` call is commented out in the source). -/
def legexpansionV (self : Vol) (t_0 t_ex p_0 p_ex : ℚ) (geometry : Geometry) :
    Except String SymExpr :=
  if self.ncoefs = 0 then .error "AssertionError" else
  let theta_s := SymExpr.sym "theta_s"
  let phi_s := SymExpr.sym "phi_s"
  let NP : ℤ := (self.ncoefs : ℤ)
  let n := SymExpr.sym "n"
  let theta_0 : SymExpr :=
    match geometry with
    | .mono => .sym "theta_0"
    | .mask g0 _ _ _ =>
      match g0 with
      | .v => .sym "theta_0"
      | .f => .num t_0
  let phi_0 : SymExpr :=
    match geometry with
    | .mono => .num p_0
    | .mask _ _ g2 _ =>
      match g2 with
      | .v => .sym "phi_0"
      | .f => .num p_0
  .ok (.sum
        (.mul self.legcoefs
          (.legendreP n
            (scat_angle (.sub .pi theta_0) theta_s phi_0 phi_s self.a)))
        "n" 0 (NP - 1))

/-- The finite Legendre sum stated by the spec (section 4.3): the sum over n
from 0 to ncoefs-1 of legcoefs(n) * LegendreP(n, scatAngle(pi - theta_0,
theta_s, phi_0, phi_s, a)), built as an unevaluated Sum node. -/
def legexpSpec (v : Vol) (theta_0 phi_0 : SymExpr) : SymExpr :=
  .sum
    (.mul v.legcoefs
      (.legendreP (.sym "n")
        (scat_angle (.sub .pi theta_0) (.sym "theta_s") phi_0 (.sym "phi_s")
          v.a)))
    "n" 0 ((v.ncoefs : ℤ) - 1)

/-- The incidence zenith slot resolved by the geometry branches of
legexpansion: symbolic for mono and for a variable first slot, the numeric
argument for a fixed first slot. -/
def theta0Of (g : Geometry) (t_0 : ℚ) : SymExpr :=
  match g with
  | .mono => .sym "theta_0"
  | .mask g0 _ _ _ =>
    match g0 with
    | .v => .sym "theta_0"
    | .f => .num t_0

/-- The incidence azimuth slot resolved by the geometry branches of
legexpansion: the numeric argument for mono and for a fixed third slot,
symbolic for a variable third slot. -/
def phi0Of (g : Geometry) (p_0 : ℚ) : SymExpr :=
  match g with
  | .mono => .num p_0
  | .mask _ _ g2 _ =>
    match g2 with
    | .v => .sym "phi_0"
    | .f => .num p_0

/-- Decide whether an `Except` value is a success. -/
def isOkE {ε α : Type} : Except ε α → Bool
  | .ok _ => true
  | .error _ => false

/-- s occurs free in the expression (occurrences of a Sum index inside its
own body are bound). -/
def SymExpr.freeIn (s : String) : SymExpr → Bool
  | .sym t => s = t
  | .num _ => false
  | .pi => false
  | .add a b => a.freeIn s || b.freeIn s
  | .sub a b => a.freeIn s || b.freeIn s
  | .mul a b => a.freeIn s || b.freeIn s
  | .div a b => a.freeIn s || b.freeIn s
  | .pow a b => a.freeIn s || b.freeIn s
  | .sin a => a.freeIn s
  | .cos a => a.freeIn s
  | .legendreP a b => a.freeIn s || b.freeIn s
  | .kroneckerDelta a b => a.freeIn s || b.freeIn s
  | .sum body idx _ _ => if s = idx then false else body.freeIn s

/-- Embedding of `Rayleigh._set_legcoefficients` (volume.py lines 330-337):
legcoefs = 3/(16 pi) * (4/3 * KroneckerDelta(0, n) + 2/3 * KroneckerDelta(2, n)).
The trailing `.expand()` of the source only redistributes the product over
the sum without changing its value; the embedding keeps the unexpanded form.
The Python float literals 4./3. and 2./3. are modelled as the exact
rationals their decimal texts denote. -/
def rayleighLegcoefs : SymExpr :=
  .mul (.div (.num 3) (.mul (.num 16) .pi))
    (.add
      (.mul (.num (4 / 3)) (.kroneckerDelta (.num 0) (.sym "n")))
      (.mul (.num (2 / 3)) (.kroneckerDelta (.num 2) (.sym "n"))))

/-- Embedding of `Rayleigh._set_function` (volume.py lines 319-328):
3/(16 pi) * (1 + x^2) with x the generalized scattering angle of the four
sympy angle symbols. -/
def rayleighFunc (a : ℚ × ℚ × ℚ) : SymExpr :=
  .mul (.div (.num 3) (.mul (.num 16) .pi))
    (.add (.num 1)
      (.pow
        (scat_angle (.sym "theta_0") (.sym "theta_ex") (.sym "phi_0")
          (.sym "phi_ex") a)
        (.num 2)))

/-- Embedding of the `Rayleigh` class (volume.py lines 294-337): a Volume
object with the inherited default a = (-1, 1, 1), ncoefs fixed to 3, and the
Rayleigh phase function and Legendre coefficients. -/
def rayleighV (tau omega : Option ℚ) : Vol :=
  { omega := omega
    tau := tau
    a := (-1, 1, 1)
    ncoefs := 3
    legcoefs := rayleighLegcoefs
    func := rayleighFunc (-1, 1, 1) }

/-- Embedding of `HenyeyGreenstein._set_legcoefficients` (volume.py lines
388-394): legcoefs = (1/(4 pi)) * (2 n + 1) * t^n, associated as in the
source: ((1/(4 pi)) * (2 n + 1)) * t^n. -/
def hgLegcoefs (t : ℚ) : SymExpr :=
  .mul
    (.mul (.div (.num 1) (.mul (.num 4) .pi))
      (.add (.mul (.num 2) (.sym "n")) (.num 1)))
    (.pow (.num t) (.sym "n"))

/-- Embedding of `HenyeyGreenstein._set_function` (volume.py lines 377-386):
(1 - t^2) / ((4 pi) * (1 + t^2 - 2 t x)^1.5). -/
def hgFunc (t : ℚ) (a : ℚ × ℚ × ℚ) : SymExpr :=
  .div (.sub (.num 1) (.pow (.num t) (.num 2)))
    (.mul (.mul (.num 4) .pi)
      (.pow
        (.sub (.add (.num 1) (.pow (.num t) (.num 2)))
          (.mul (.mul (.num 2) (.num t))
            (scat_angle (.sym "theta_0") (.sym "theta_ex") (.sym "phi_0")
              (.sym "phi_ex") a)))
        (.num (3 / 2))))

/-- Embedding of the `HenyeyGreenstein` class (volume.py lines 340-394).
Its asserts (t and ncoefs provided, a a list of exactly 3 floats) are
enforced here by the types; the `ncoefs > 0` assert is a precondition of the
theorems that use it. -/
def henyeyGreensteinV (t : ℚ) (ncoefs : ℕ) (a : ℚ × ℚ × ℚ)
    (tau omega : Option ℚ) : Vol :=
  { omega := omega
    tau := tau
    a := a
    ncoefs := ncoefs
    legcoefs := hgLegcoefs t
    func := hgFunc t a }

-- ------------------------------------------------------------------
-- Numeric semantics of the symbolic expressions (sympy evalf)
-- ------------------------------------------------------------------

/-- Legendre polynomial of natural order, by the three-term recurrence
(the value sympy assigns to legendre(k, x) at integer k). -/
noncomputable def legendreRec : ℕ → ℝ → ℝ
  | 0, _ => 1
  | 1, x => x
  | (k + 2), x =>
      ((2 * (k : ℝ) + 3) * x * legendreRec (k + 1) x
        - ((k : ℝ) + 1) * legendreRec k x) / ((k : ℝ) + 2)

open Classical in
/-- Denotation of sp.legendre: the Legendre polynomial when the order is a
natural number, an arbitrary default otherwise (sympy leaves such terms
unevaluated; no theorem below depends on the default). -/
noncomputable def legendreFun (nu x : ℝ) : ℝ :=
  if h : ∃ k : ℕ, (k : ℝ) = nu then legendreRec h.choose x else 0

/-- Numeric evaluation of a symbolic expression under an environment for the
free symbols: the shallow counterpart of substituting numbers for all symbols
and calling evalf.  Powers evaluate through the real power function, the
Kronecker delta to an indicator, and Sum nodes to finite sums over their
integer range with the index bound in the body. -/
noncomputable def SymExpr.eval : SymExpr → (String → ℝ) → ℝ
  | .sym s, env => env s
  | .num q, _ => (q : ℝ)
  | .pi, _ => Real.pi
  | .add a b, env => a.eval env + b.eval env
  | .sub a b, env => a.eval env - b.eval env
  | .mul a b, env => a.eval env * b.eval env
  | .div a b, env => a.eval env / b.eval env
  | .pow a b, env => a.eval env ^ b.eval env
  | .sin a, env => Real.sin (a.eval env)
  | .cos a, env => Real.cos (a.eval env)
  | .legendreP a b, env => legendreFun (a.eval env) (b.eval env)
  | .kroneckerDelta a b, env => if a.eval env = b.eval env then 1 else 0
  | .sum body idx lo hi, env =>
      Finset.sum (Finset.Icc lo hi)
        (fun k => body.eval (fun s => if s = idx then (k : ℝ) else env s))

/-- Embedding of `Scatter._get_legcoef` (scatter.py lines 24-31): substitute
the integer n0 for the symbol n in a legcoefs expression and evaluate. -/
noncomputable def legcoefAt (e : SymExpr) (n0 : ℕ) : ℝ :=
  e.eval (fun s => if s = "n" then (n0 : ℝ) else 0)

-- ------------------------------------------------------------------
-- ScatteringGeometry (rt1.py lines 43-66)
-- ------------------------------------------------------------------

/-- Embedding of `RT1.cos_theta` (rt1.py lines 43-59):
mu_i*mu_s + sin(arccos(mu_i))*sin(arccos(mu_s))*cos(phi_i - phi_s). -/
noncomputable def cos_theta (mu_i mu_s phi_i phi_s : ℝ) : ℝ :=
  mu_i * mu_s +
    Real.sin (Real.arccos mu_i) * Real.sin (Real.arccos mu_s) *
      Real.cos (phi_i - phi_s)

/-- Embedding of `RT1.cos_theta_prime` (rt1.py lines 61-66): the same with
the first term negated. -/
noncomputable def cos_theta_prime (mu_i mu_s phi_i phi_s : ℝ) : ℝ :=
  -mu_i * mu_s +
    Real.sin (Real.arccos mu_i) * Real.sin (Real.arccos mu_s) *
      Real.cos (phi_i - phi_s)

-- ------------------------------------------------------------------
-- Linear combinations (volume.py lines 156-291, LinCombV._Vcombiner)
-- ------------------------------------------------------------------

/-- One entry of the Vchoices list: a weighting factor and a Volume
object. -/
abbrev Vchoice := ℚ × Vol

/-- The numerical test performed by np.testing.assert_almost_equal with its
default decimal = 7 (volume.py line 253): the check passes exactly when
abs(desired - actual) < 1.5 * 10^(-7). -/
def assertAlmostEqual7 (desired actual : ℚ) : Bool :=
  decide (|desired - actual| < 3 / 20000000)

/-- The generalized-angle triple stored at index i of the choices list, when
the index is in range. -/
def aAt (cs : List Vchoice) (i : ℕ) : Option (ℚ × ℚ × ℚ) :=
  (cs[i]?).map (fun V => V.2.a)

/-- Embedding of np.where over the boolean row-equality array (volume.py
line 256): the increasing list of indices whose a-triple equals aa. -/
def allIdx (cs : List Vchoice) (aa : ℚ × ℚ × ℚ) : List ℕ :=
  (List.range cs.length).filter (fun i => decide (aAt cs i = some aa))

/-- volume.py line 256: for every choice, the index list of the choices
with an equal a parameter. -/
def equalsIdx (cs : List Vchoice) : List (List ℕ) :=
  cs.map (fun V => allIdx cs V.2.a)

/-- Deduplication keeping first occurrences: a deterministic stand-in for
the Python set comprehension of volume.py line 258 (set iteration order is
unspecified in Python; none of the verified properties depend on the
order of the classes). -/
def dedupF : List (List ℕ) → List (List ℕ)
  | [] => []
  | x :: xs => x :: dedupF (xs.filter (fun y => decide (y ≠ x)))
termination_by l => l.length
decreasing_by
  simp only [List.length_cons]
  exact Nat.lt_succ_of_le (List.length_filter_le _ _)

/-- The equivalence classes (index lists) of choices sharing an a-triple:
equal_a of volume.py line 258. -/
def vclasses (cs : List Vchoice) : List (List ℕ) := dedupF (equalsIdx cs)

/-- np.take(self.Vchoices, equal_a[i], axis=0) (volume.py line 271): the
choices selected by an index class. -/
def classMembers (cs : List Vchoice) (c : List ℕ) : List Vchoice :=
  c.filterMap (fun j => cs[j]?)

/-- Python max over the ncoefs of a list of choices (volume.py lines 262
and 273); the list is nonempty wherever this is used. -/
def maxNcoefs (mem : List Vchoice) : ℕ :=
  mem.foldl (fun m V => max m V.2.ncoefs) 0

/-- The running weighted sum built by the accumulation loops of volume.py
(lines 279-280 and 289): starting from the float 0. of
Phasefunction._set_function / _set_legcoefficients, add expr * weight for
each choice in order. -/
def wsum (f : Vchoice → SymExpr) (mem : List Vchoice) : SymExpr :=
  mem.foldl (fun acc V => .add acc (.mul (f V) (.num V.1))) (.num 0)

/-- The Vdummy Phasefunction built for one equivalence class (volume.py
lines 270-280): ncoefs is the class maximum (line 273, set before the
loop), and the loop accumulates a (last member wins; all members of a
class agree), _func and legcoefs. -/
def classDummy (cs : List Vchoice) (c : List ℕ) : Vol :=
  let mem := classMembers cs c
  { omega := none
    tau := none
    a := mem.foldl (fun _ V => V.2.a) (-1, 1, 1)
    ncoefs := maxNcoefs mem
    legcoefs := wsum (fun V => V.2.legcoefs) mem
    func := wsum (fun V => V.2.func) mem }

/-- np.sum over a Python list of sympy expressions (volume.py line 285):
a left fold of + starting from the first element, 0. for an empty list. -/
def npSum : List SymExpr → SymExpr
  | [] => .num 0
  | e :: es => es.foldl .add e

/-- The lambda bound to Vcomb.legexpansion (volume.py line 285): evaluate
every per-class dummy legexpansion and np.sum the results (an exception in
any class propagates). -/
def combLegexp (cs : List Vchoice) (t_0 t_ex p_0 p_ex : ℚ) (g : Geometry) :
    Except String SymExpr :=
  ((vclasses cs).mapM
    (fun c => legexpansionV (classDummy cs c) t_0 t_ex p_0 p_ex g)).map npSum

/-- State of the combined Vcomb object returned by _Vcombiner: the
attribute state of the dummy Phasefunction after the combination loops,
plus the instance attribute legexpansion that overrides the class method
with the per-class-sum lambda. -/
structure CombVol where
  ncoefs : ℕ
  legcoefs : SymExpr
  func : SymExpr
  tau : Option ℚ
  omega : Option ℚ
  legexp : ℚ → ℚ → ℚ → ℚ → Geometry → Except String SymExpr

/-- Embedding of `LinCombV._Vcombiner` (volume.py lines 206-291).  First the
weighting factors are checked by assert_almost_equal (line 253; failure
raises AssertionError out of the constructor).  On success the combined
object carries: ncoefs = the maximum over all choices (line 262), legcoefs
left at the Phasefunction initial value 0 (line 250, never updated for
Vcomb), _func = the weighted sum over all choices (lines 287-289), tau and
omega from the combination request (line 261), and the overriding
legexpansion lambda (line 285). -/
def vcombiner (cs : List Vchoice) (tau omega : Option ℚ) :
    Except String CombVol :=
  if assertAlmostEqual7 1 ((cs.map (fun V => V.1)).sum) = true then
    .ok { ncoefs := maxNcoefs cs
          legcoefs := .num 0
          func := wsum (fun V => V.2.func) cs
          tau := tau
          omega := omega
          legexp := combLegexp cs }
  else
    .error "AssertionError: the sum of the phase-function weighting-factors must equate to 1"

/-- The concrete choices list refuting the 1e-8 tolerance of the claim: the
weights sum to 1 + 2e-8. -/
def cexChoices : List Vchoice :=
  [(1/2, rayleighV none none),
   (1/2 + 1/50000000, henyeyGreensteinV 0 2 (-1, 1, 1) none none)]

/-- Concrete linear combination with weights [0.5, 0.6] (sum 1.1). -/
def badChoices : List Vchoice :=
  [(1/2, rayleighV none none),
   (3/5, henyeyGreensteinV 0 2 (-1, 1, 1) none none)]

/-- Concrete linear combination with weights [0.4, 0.6] (sum 1). -/
def goodChoices : List Vchoice :=
  [(2/5, rayleighV none none),
   (3/5, henyeyGreensteinV 0 2 (-1, 1, 1) none none)]

/-- Concrete two-class linear combination used as a witness: the Rayleigh
component keeps the default a = (-1,1,1) while the Henyey-Greenstein
component uses a = (1,1,1). -/
def lcWitnessChoices : List Vchoice :=
  [(1/2, rayleighV none none),
   (1/2, henyeyGreensteinV (1/5) 2 (1, 1, 1) none none)]

-- ------------------------------------------------------------------
-- RT1 model (rt1.py)
-- ------------------------------------------------------------------

/-- The attribute state an RT1 instance actually has: RT1.__init__
(rt1.py lines 21-41) sets I0, mu_0, mu_ex, RV, SRF, _nmax and Fn and
nothing else.  The volume collaborator RV contributes tau and omega; the
surface collaborator SRF contributes the brdf function. -/
structure RT1State where
  I0 : ℝ
  mu_0 : ℝ
  mu_ex : ℝ
  RVtau : ℝ
  RVomega : ℝ
  brdf : ℝ → ℝ

/-- Embedding of `RT1.surface` (rt1.py lines 76-86).  The method computes
ctheta = cos_theta(-mu_0, mu_ex, 0, 0) and then evaluates the return
expression left to right: the bare name I0 resolves to the module-level
global (rt1.py line 130), not to self.I0, and the next factor reads
self.tau - an attribute RT1 never sets (the optical depth lives on the
volume collaborator as self.RV.tau) - so the attribute lookup raises
AttributeError and the method never returns a value. -/
noncomputable def surface (globalI0 : ℝ) (self : RT1State) : Except String ℝ :=
  let phi_i : ℝ := 0
  let phi_s : ℝ := 0
  let _ctheta : ℝ := cos_theta (-self.mu_0) self.mu_ex phi_i phi_s
  let _I0 : ℝ := globalI0
  .error "AttributeError: RT1 instance has no attribute tau"

/-- Modelled from the spec: section 4.6 surfaceTerm, the intended corrected
contract of RT1.surface using the per-instance I0 and the volume
collaborator tau: I0 * exp(-tau/mu_0 - tau/mu_ex) * mu_0 *
SRF.brdf(cosTheta(-mu_0, mu_ex, 0, 0)). -/
noncomputable def surfaceTermSpec (self : RT1State) : ℝ :=
  self.I0 *
    Real.exp (-(self.RVtau / self.mu_0) - self.RVtau / self.mu_ex) *
    self.mu_0 * self.brdf (cos_theta (-self.mu_0) self.mu_ex 0 0)

/-- The bare Python name todo read by `E_k1 = todo` (rt1.py line 116): it is
bound nowhere in the module, so evaluating it raises NameError. -/
def todoName : Except String ℝ := .error "NameError: name todo is not defined"

/-- The bare Python name expi used on rt1.py line 121: scipy.special.expi
is never imported in rt1.py, so evaluating the name raises NameError (the
line is anyway unreachable, see calc_Fint). -/
def expiName : Except String (ℝ → ℝ) :=
  .error "NameError: name expi is not defined"

/-- Embedding of `RT1._calc_Fint` (rt1.py lines 102-121).  S starts at 0;
for each n below nmax the inner loop over k = 1 .. n+1 first executes
`E_k1 = todo`, which raises NameError on its first iteration (and the inner
range is never empty), so for nmax > 0 the whole call raises before any sum
is accumulated; the accumulation lines are transcribed below the raising
reads exactly as in the source.  For nmax = 0 both loops are skipped and,
the method body having no return statement, the call returns None. -/
noncomputable def calc_Fint (nmax : ℕ) (mu1 mu2 tau : ℝ) (fn : ℕ → ℝ) :
    Except String (Option ℝ) := do
  let mut S : ℝ := 0
  for n in List.range nmax do
    let mut S2 : ℝ := 0
    for k in List.range' 1 (n + 1) do
      let E_k1 ← todoName
      S2 := S2 + mu1 ^ (-(k : ℤ)) * (E_k1 - Real.exp (-tau / mu1) / (k : ℝ))
    let expi ← expiName
    S := S + fn n * mu1 ^ (n + 1) *
      (Real.exp (-tau / mu1) * Real.log (mu1 / (1 - mu1)) - expi (-tau)
        + Real.exp (-tau / mu1) * expi (tau / mu1 - tau) + S2)
  return none


-- ------------------------------------------------------------------
-- Theorems
-- ------------------------------------------------------------------

/-- Helper: for a positive number of coefficients and any valid geometry,
legexpansion returns the unevaluated spec sum, with theta_0 and phi_0
resolved per the geometry branches. -/
theorem legexpansionV_ok (v : Vol) (h : 0 < v.ncoefs)
    (t_0 t_ex p_0 p_ex : ℚ) (g : Geometry) :
    legexpansionV v t_0 t_ex p_0 p_ex g =
      Except.ok (legexpSpec v (theta0Of g t_0) (phi0Of g p_0)) := by
  cases g with
  | mono =>
    simp [legexpansionV, legexpSpec, theta0Of, phi0Of, Nat.pos_iff_ne_zero.mp h]
  | mask g0 g1 g2 g3 =>
    cases g0 <;> cases g2 <;>
      simp [legexpansionV, legexpSpec, theta0Of, phi0Of,
        Nat.pos_iff_ne_zero.mp h]

/-- C2: for every phase function with ncoefs > 0, any angle arguments and any
valid geometry mode, legexpansion returns exactly the finite symbolic sum
over n from 0 to ncoefs-1 of legcoefs(n) * LegendreP(n, scatAngle(pi -
theta_0, theta_s, phi_0, phi_s, a)) - the incidence zenith entering as pi -
theta_0 - and the result is an unevaluated Sum node (the equation exhibits
the SymExpr.sum constructor at the root: no summation is forced). -/
theorem legexpansion_is_spec_sum (v : Vol) (h : 0 < v.ncoefs)
    (t_0 t_ex p_0 p_ex : ℚ) (g : Geometry) :
    legexpansionV v t_0 t_ex p_0 p_ex g =
      Except.ok (SymExpr.sum
        (.mul v.legcoefs
          (.legendreP (.sym "n")
            (scat_angle (.sub .pi (theta0Of g t_0)) (.sym "theta_s")
              (phi0Of g p_0) (.sym "phi_s") v.a)))
        "n" 0 ((v.ncoefs : ℤ) - 1)) :=
  legexpansionV_ok v h t_0 t_ex p_0 p_ex g

/-- Witness for C2 at the Rayleigh phase function and the all-fixed
geometry. -/
theorem legexpansion_is_spec_sum_witness :
    0 < (rayleighV none none).ncoefs ∧
    legexpansionV (rayleighV none none) (1/10) (2/10) (3/10) (4/10)
        (.mask .f .f .f .f) =
      Except.ok (SymExpr.sum
        (.mul (rayleighV none none).legcoefs
          (.legendreP (.sym "n")
            (scat_angle
              (.sub .pi (theta0Of (.mask .f .f .f .f) (1/10)))
              (.sym "theta_s") (phi0Of (.mask .f .f .f .f) (3/10))
              (.sym "phi_s") (rayleighV none none).a)))
        "n" 0 (((rayleighV none none).ncoefs : ℤ) - 1)) :=
  ⟨by decide,
    legexpansion_is_spec_sum (rayleighV none none) (by decide)
      (1/10) (2/10) (3/10) (4/10) (.mask .f .f .f .f)⟩

/-- C4: in monostatic geometry, legexpansion ignores the supplied exit-angle
values: two calls differing only in t_ex and p_ex return the same result,
and the call succeeds (no error is raised). -/
theorem legexpansion_mono_ignores_exit (v : Vol) (h : 0 < v.ncoefs)
    (t_0 p_0 tex1 pex1 tex2 pex2 : ℚ) :
    legexpansionV v t_0 tex1 p_0 pex1 .mono =
      legexpansionV v t_0 tex2 p_0 pex2 .mono ∧
    isOkE (legexpansionV v t_0 tex1 p_0 pex1 .mono) = true := by
  refine ⟨rfl, ?_⟩
  rw [legexpansionV_ok v h]
  rfl

/-- Witness for C4 at the Rayleigh phase function with two different pairs of
exit angles. -/
theorem legexpansion_mono_ignores_exit_witness :
    0 < (rayleighV none none).ncoefs ∧
    (legexpansionV (rayleighV none none) (3/10) 1 (1/10) 2 .mono =
        legexpansionV (rayleighV none none) (3/10) 5 (1/10) 7 .mono ∧
      isOkE (legexpansionV (rayleighV none none) (3/10) 1 (1/10) 2 .mono) =
        true) :=
  ⟨by decide,
    legexpansion_mono_ignores_exit (rayleighV none none) (by decide)
      (3/10) (1/10) 1 2 5 7⟩

/-- C10: in monostatic geometry the numeric incidence zenith t_0 is also
ignored: the returned expansion keeps theta_0 as a free symbolic variable
(freeIn certifies the free occurrence), substitutes the incidence azimuth
p_0 numerically, and consequently depends on none of t_0, t_ex, p_ex - among
the four numeric angle arguments only p_0 matters. -/
theorem legexpansion_mono_depends_only_on_p0 (v : Vol) (h : 0 < v.ncoefs)
    (t_0 t_ex p_0 p_ex u_0 u_ex q_ex : ℚ) :
    legexpansionV v t_0 t_ex p_0 p_ex .mono =
      Except.ok (legexpSpec v (.sym "theta_0") (.num p_0)) ∧
    legexpansionV v t_0 t_ex p_0 p_ex .mono =
      legexpansionV v u_0 u_ex p_0 q_ex .mono ∧
    (legexpSpec v (.sym "theta_0") (.num p_0)).freeIn "theta_0" = true := by
  refine ⟨legexpansionV_ok v h t_0 t_ex p_0 p_ex .mono, rfl, ?_⟩
  simp [legexpSpec, scat_angle, SymExpr.freeIn]

/-- Witness for C10 at the Rayleigh phase function. -/
theorem legexpansion_mono_depends_only_on_p0_witness :
    0 < (rayleighV none none).ncoefs ∧
    (legexpansionV (rayleighV none none) (3/10) 1 (1/10) 2 .mono =
        Except.ok (legexpSpec (rayleighV none none) (.sym "theta_0")
          (.num (1/10))) ∧
      legexpansionV (rayleighV none none) (3/10) 1 (1/10) 2 .mono =
        legexpansionV (rayleighV none none) (9/10) 4 (1/10) 6 .mono ∧
      (legexpSpec (rayleighV none none) (.sym "theta_0")
          (.num (1/10))).freeIn "theta_0" = true) :=
  ⟨by decide,
    legexpansion_mono_depends_only_on_p0 (rayleighV none none) (by decide)
      (3/10) 1 (1/10) 2 (9/10) 4 6⟩

/-- C9: for zenith cosines in [-1,1], cos_theta computes
mu_i*mu_s + sqrt(1-mu_i^2)*sqrt(1-mu_s^2)*cos(phi_i-phi_s), cos_theta_prime
the same expression with the first term negated, and for equal azimuths the
cosine factor drops out. -/
theorem cos_theta_formula (mu_i mu_s phi_i phi_s : ℝ)
    (hi : -1 ≤ mu_i ∧ mu_i ≤ 1) (hs : -1 ≤ mu_s ∧ mu_s ≤ 1) :
    cos_theta mu_i mu_s phi_i phi_s =
      mu_i * mu_s +
        Real.sqrt (1 - mu_i ^ 2) * Real.sqrt (1 - mu_s ^ 2) *
          Real.cos (phi_i - phi_s) ∧
    cos_theta_prime mu_i mu_s phi_i phi_s =
      -(mu_i * mu_s) +
        Real.sqrt (1 - mu_i ^ 2) * Real.sqrt (1 - mu_s ^ 2) *
          Real.cos (phi_i - phi_s) ∧
    cos_theta mu_i mu_s phi_i phi_i =
      mu_i * mu_s + Real.sqrt (1 - mu_i ^ 2) * Real.sqrt (1 - mu_s ^ 2) := by
  refine ⟨?_, ?_, ?_⟩
  · rw [cos_theta, Real.sin_arccos, Real.sin_arccos]
  · rw [cos_theta_prime, Real.sin_arccos, Real.sin_arccos]; ring
  · rw [cos_theta, Real.sin_arccos, Real.sin_arccos, sub_self, Real.cos_zero,
      mul_one]

/-- Witness for C9 at mu_i = 1/2, mu_s = 1/3, phi_i = 1, phi_s = 2. -/
theorem cos_theta_formula_witness :
    (-1 ≤ (1/2 : ℝ) ∧ (1/2 : ℝ) ≤ 1) ∧ (-1 ≤ (1/3 : ℝ) ∧ (1/3 : ℝ) ≤ 1) ∧
    (cos_theta (1/2) (1/3) 1 2 =
        (1/2 : ℝ) * (1/3) +
          Real.sqrt (1 - (1/2 : ℝ) ^ 2) * Real.sqrt (1 - (1/3 : ℝ) ^ 2) *
            Real.cos ((1 : ℝ) - 2) ∧
      cos_theta_prime (1/2) (1/3) 1 2 =
        -((1/2 : ℝ) * (1/3)) +
          Real.sqrt (1 - (1/2 : ℝ) ^ 2) * Real.sqrt (1 - (1/3 : ℝ) ^ 2) *
            Real.cos ((1 : ℝ) - 2) ∧
      cos_theta (1/2) (1/3) 1 1 =
        (1/2 : ℝ) * (1/3) +
          Real.sqrt (1 - (1/2 : ℝ) ^ 2) * Real.sqrt (1 - (1/3 : ℝ) ^ 2)) :=
  ⟨⟨by norm_num, by norm_num⟩, ⟨by norm_num, by norm_num⟩,
    cos_theta_formula (1/2) (1/3) 1 2 ⟨by norm_num, by norm_num⟩
      ⟨by norm_num, by norm_num⟩⟩

/-- C7: the Rayleigh phase function has ncoefs = 3, and its Legendre
coefficient closed form evaluates to 3/(16 pi) * 4/3 at n = 0, to
3/(16 pi) * 2/3 at n = 2, and to 0 at every other natural index. -/
theorem rayleigh_legcoefs_values (n : ℕ) (h : n ≠ 0 ∧ n ≠ 2) :
    (rayleighV none none).ncoefs = 3 ∧
    legcoefAt rayleighLegcoefs 0 = 3 / (16 * Real.pi) * (4 / 3) ∧
    legcoefAt rayleighLegcoefs 2 = 3 / (16 * Real.pi) * (2 / 3) ∧
    legcoefAt rayleighLegcoefs n = 0 := by
  refine ⟨rfl, ?_, ?_, ?_⟩
  · simp [legcoefAt, rayleighLegcoefs, SymExpr.eval]
  · simp [legcoefAt, rayleighLegcoefs, SymExpr.eval]
  · simp only [legcoefAt, rayleighLegcoefs, SymExpr.eval]
    rw [if_neg, if_neg]
    · norm_num
    · push_cast
      simpa using fun hc => h.2 (by exact_mod_cast hc.symm)
    · push_cast
      simpa using fun hc => h.1 (by exact_mod_cast hc.symm)

/-- Witness for C7 at n = 5. -/
theorem rayleigh_legcoefs_values_witness :
    ((5 : ℕ) ≠ 0 ∧ (5 : ℕ) ≠ 2) ∧
    ((rayleighV none none).ncoefs = 3 ∧
      legcoefAt rayleighLegcoefs 0 = 3 / (16 * Real.pi) * (4 / 3) ∧
      legcoefAt rayleighLegcoefs 2 = 3 / (16 * Real.pi) * (2 / 3) ∧
      legcoefAt rayleighLegcoefs 5 = 0) :=
  ⟨by decide, rayleigh_legcoefs_values 5 (by decide)⟩

/-- C8: the Henyey-Greenstein Legendre coefficient closed form evaluates at
every natural index n to (2n+1)/(4 pi) * t^n, and for t = 0 it degenerates to
the isotropic case: 1/(4 pi) at n = 0 and 0 at every positive index. -/
theorem hg_legcoefs_formula (t : ℚ) (ht : -1 < t ∧ t < 1) (n : ℕ) :
    legcoefAt (hgLegcoefs t) n =
      (2 * (n : ℝ) + 1) / (4 * Real.pi) * (t : ℝ) ^ n ∧
    legcoefAt (hgLegcoefs 0) 0 = 1 / (4 * Real.pi) ∧
    (0 < n → legcoefAt (hgLegcoefs 0) n = 0) := by
  have key : ∀ (s : ℚ) (m : ℕ), legcoefAt (hgLegcoefs s) m =
      (2 * (m : ℝ) + 1) / (4 * Real.pi) * (s : ℝ) ^ m := by
    intro s m
    simp only [legcoefAt, hgLegcoefs, SymExpr.eval, if_pos]
    rw [Real.rpow_natCast]
    push_cast
    ring
  refine ⟨key t n, ?_, ?_⟩
  · rw [key 0 0]
    norm_num
  · intro hn
    rw [key 0 n]
    push_cast
    rw [zero_pow (Nat.pos_iff_ne_zero.mp hn)]
    ring

/-- Witness for C8 at t = 1/2, n = 1. -/
theorem hg_legcoefs_formula_witness :
    (-1 < (1/2 : ℚ) ∧ (1/2 : ℚ) < 1) ∧
    (legcoefAt (hgLegcoefs (1/2)) 1 =
        (2 * ((1 : ℕ) : ℝ) + 1) / (4 * Real.pi) * ((1/2 : ℚ) : ℝ) ^ (1 : ℕ) ∧
      legcoefAt (hgLegcoefs 0) 0 = 1 / (4 * Real.pi) ∧
      (0 < 1 → legcoefAt (hgLegcoefs 0) 1 = 0)) :=
  ⟨by norm_num, hg_legcoefs_formula (1/2) (by norm_num) 1⟩

-- ------------------------------------------------------------------
-- Helper lemmas for the combinator
-- ------------------------------------------------------------------

/-- Membership is invariant under the first-occurrence deduplication. -/
theorem mem_dedupF (y : List ℕ) (l : List (List ℕ)) :
    y ∈ dedupF l ↔ y ∈ l := by
  induction l using dedupF.induct with
  | case1 => simp [dedupF]
  | case2 x xs ih =>
    by_cases hy : y = x
    · subst hy
      simp [dedupF]
    · rw [dedupF]
      simp only [List.mem_cons, ih, List.mem_filter, decide_eq_true_eq]
      constructor
      · rintro (h | ⟨h, _⟩)
        · exact Or.inl h
        · exact Or.inr h
      · rintro (h | h)
        · exact Or.inl h
        · exact Or.inr ⟨h, hy⟩

/-- Index membership in an a-equality class. -/
theorem mem_allIdx (cs : List Vchoice) (aa : ℚ × ℚ × ℚ) (i : ℕ) :
    i ∈ allIdx cs aa ↔ aAt cs i = some aa := by
  simp only [allIdx, List.mem_filter, List.mem_range, decide_eq_true_eq]
  constructor
  · exact fun h => h.2
  · intro h
    refine ⟨?_, h⟩
    by_contra hlt
    rw [aAt, List.getElem?_eq_none (by omega)] at h
    simp at h

/-- The classes listed by equalsIdx are exactly the a-equality classes of
the choices. -/
theorem mem_equalsIdx (cs : List Vchoice) (c : List ℕ) :
    c ∈ equalsIdx cs ↔ ∃ V ∈ cs, c = allIdx cs V.2.a := by
  simp [equalsIdx, List.mem_map, eq_comm]

/-- The deduplicated class list has the same members. -/
theorem mem_vclasses (cs : List Vchoice) (c : List ℕ) :
    c ∈ vclasses cs ↔ ∃ V ∈ cs, c = allIdx cs V.2.a := by
  rw [vclasses, mem_dedupF, mem_equalsIdx]

/-- The initial value bounds the ncoefs fold from below. -/
theorem le_foldl_maxN (mem : List Vchoice) :
    ∀ i : ℕ, i ≤ mem.foldl (fun m V => max m V.2.ncoefs) i := by
  induction mem with
  | nil => intro i; simp
  | cons x xs ih =>
    intro i
    simp only [List.foldl_cons]
    exact le_trans (le_max_left _ _) (ih _)

/-- Every member ncoefs bounds the ncoefs fold from below. -/
theorem mem_le_foldl_maxN (mem : List Vchoice) :
    ∀ i : ℕ, ∀ V ∈ mem, V.2.ncoefs ≤ mem.foldl (fun m V => max m V.2.ncoefs) i := by
  induction mem with
  | nil => simp
  | cons x xs ih =>
    intro i V hV
    simp only [List.foldl_cons]
    rcases List.mem_cons.mp hV with h | h
    · subst h
      exact le_trans (le_max_right _ _) (le_foldl_maxN xs _)
    · exact ih _ V h

/-- The ncoefs fold returns its initial value or the value of a member. -/
theorem foldl_maxN_eq_init_or_mem (mem : List Vchoice) :
    ∀ i : ℕ, mem.foldl (fun m V => max m V.2.ncoefs) i = i ∨
      ∃ V ∈ mem, mem.foldl (fun m V => max m V.2.ncoefs) i = V.2.ncoefs := by
  induction mem with
  | nil => intro i; exact Or.inl rfl
  | cons x xs ih =>
    intro i
    simp only [List.foldl_cons]
    rcases ih (max i x.2.ncoefs) with h | ⟨V, hV, h⟩
    · rcases max_choice i x.2.ncoefs with hm | hm
      · exact Or.inl (by rw [h, hm])
      · exact Or.inr ⟨x, List.mem_cons_self x xs, by rw [h, hm]⟩
    · exact Or.inr ⟨V, List.mem_cons_of_mem x hV, h⟩

/-- Evaluating the weighted accumulation fold: the value is the initial
value plus the weighted sum of the member evaluations. -/
theorem eval_wsum_fold (f : Vchoice → SymExpr) (mem : List Vchoice) :
    ∀ (acc : SymExpr) (env : String → ℝ),
      (mem.foldl (fun a V => SymExpr.add a (.mul (f V) (.num V.1))) acc).eval
          env =
        acc.eval env + (mem.map (fun V => (f V).eval env * (V.1 : ℝ))).sum := by
  induction mem with
  | nil => intro acc env; simp
  | cons x xs ih =>
    intro acc env
    simp only [List.foldl_cons, List.map_cons, List.sum_cons]
    rw [ih]
    simp only [SymExpr.eval]
    ring

/-- The weighted sum expression evaluates to the weighted sum of the
member evaluations. -/
theorem eval_wsum (f : Vchoice → SymExpr) (mem : List Vchoice)
    (env : String → ℝ) :
    (wsum f mem).eval env =
      (mem.map (fun V => (f V).eval env * (V.1 : ℝ))).sum := by
  rw [wsum, eval_wsum_fold]
  simp [SymExpr.eval]

/-- mapM over a list on which the function everywhere succeeds. -/
theorem mapM_ok {α β : Type} (l : List α) (f : α → Except String β)
    (g : α → β) (h : ∀ x ∈ l, f x = Except.ok (g x)) :
    l.mapM f = Except.ok (l.map g) := by
  induction l with
  | nil => rfl
  | cons x xs ih =>
    rw [List.mapM_cons, h x (List.mem_cons_self x xs), List.map_cons,
      ih (fun y hy => h y (List.mem_cons_of_mem x hy))]
    rfl

/-- Members of a class are choices of the list. -/
theorem classMembers_subset (cs : List Vchoice) (c : List ℕ) (V : Vchoice)
    (h : V ∈ classMembers cs c) : V ∈ cs := by
  rw [classMembers] at h
  rcases List.mem_filterMap.mp h with ⟨j, _, hj⟩
  rcases List.getElem?_eq_some.mp hj with ⟨hlt, hval⟩
  exact hval ▸ List.getElem_mem hlt

/-- Every class of vclasses has at least one member, and its dummy object
has positive ncoefs whenever every choice has positive ncoefs. -/
theorem classDummy_ncoefs_pos (cs : List Vchoice) (c : List ℕ)
    (hc : c ∈ vclasses cs) (hpos : ∀ V ∈ cs, 0 < V.2.ncoefs) :
    0 < (classDummy cs c).ncoefs := by
  rcases (mem_vclasses cs c).mp hc with ⟨V, hV, rfl⟩
  rcases List.mem_iff_getElem?.mp hV with ⟨i, hi⟩
  have hic : i ∈ allIdx cs V.2.a := by
    rw [mem_allIdx, aAt, hi]
    rfl
  have hmem : V ∈ classMembers cs (allIdx cs V.2.a) :=
    List.mem_filterMap.mpr ⟨i, hic, hi⟩
  exact lt_of_lt_of_le (hpos V hV)
    (mem_le_foldl_maxN (classMembers cs (allIdx cs V.2.a)) 0 V hmem)

/-- The success of _Vcombiner is equivalent to the numpy almost-equality
of the weight sum with 1 at decimal = 7. -/
theorem vcombiner_isOk_iff (cs : List Vchoice) (tau omega : Option ℚ) :
    isOkE (vcombiner cs tau omega) = true ↔
      |1 - ((cs.map (fun V => V.1)).sum)| < 3 / 20000000 := by
  by_cases h : |1 - ((cs.map (fun V => V.1)).sum)| < 3 / 20000000
  · simp [vcombiner, assertAlmostEqual7, h, isOkE]
  · simp [vcombiner, assertAlmostEqual7, h, isOkE]

-- ------------------------------------------------------------------
-- Theorems for the remaining claims
-- ------------------------------------------------------------------

/-- C1 (code defect): _calc_Fint never returns the truncated series.  For
the default truncation nmax = 10 and the example parameters mu1 = mu2 = 0.5,
tau = 0.7, fn constant 1, the call raises NameError on the unbound name
todo (rt1.py line 116) during the first inner iteration; with nmax = 0 the
loops are skipped and the method, having no return statement, returns
None. -/
theorem calc_Fint_never_returns_sum :
    calc_Fint 10 (1/2) (1/2) (7/10) (fun _ => 1) =
      Except.error "NameError: name todo is not defined" ∧
    calc_Fint 0 (1/2) (1/2) (7/10) (fun _ => 1) = Except.ok none := by
  constructor <;> rfl

/-- C3 (code defect): RT1.surface never evaluates to the spec surface term:
for every module-global I0 value and every instance state it raises
AttributeError on the unset attribute self.tau (rt1.py line 86) - the
return expression also reads the module-global I0 rather than self.I0 -
so it never returns the per-instance value I0 * exp(-tau/mu_0 - tau/mu_ex)
* mu_0 * brdf(cos_theta(-mu_0, mu_ex, 0, 0)). -/
theorem surface_raises_attribute_error (globalI0 : ℝ) (self : RT1State) :
    surface globalI0 self =
      Except.error "AttributeError: RT1 instance has no attribute tau" ∧
    surface globalI0 self ≠ Except.ok (surfaceTermSpec self) := by
  refine ⟨rfl, ?_⟩
  simp [surface]

/-- C5 counterexample: a weight list whose sum differs from 1 by 2e-8 -
more than the tolerance 1e-8 asserted by the claim - for which the
combination nevertheless constructs successfully (numpy assert_almost_equal
at decimal = 7 accepts any deviation below 1.5e-7). -/
theorem lincomb_tolerance_counterexample :
    1 / 100000000 < |1 - ((cexChoices.map (fun V => V.1)).sum)| ∧
    isOkE (vcombiner cexChoices none none) = true := by
  have hsum : ((cexChoices.map (fun V => V.1)).sum) = 1 + 1 / 50000000 := by
    simp [cexChoices]
    norm_num
  constructor
  · rw [hsum, lt_abs]
    right
    norm_num
  · rw [vcombiner_isOk_iff, hsum, abs_sub_lt_iff]
    norm_num

/-- C5 amended: construction of a linear combination fails exactly when the
weight sum fails the numpy almost-equality test at decimal = 7, i.e. when
the sum differs from 1 by at least 1.5e-7 (the weights are used as given,
never renormalized); in particular weights [0.5, 0.6] fail and weights
[0.4, 0.6] succeed. -/
theorem lincomb_weight_check_iff (cs : List Vchoice) (tau omega : Option ℚ) :
    (isOkE (vcombiner cs tau omega) = true ↔
      |1 - ((cs.map (fun V => V.1)).sum)| < 3 / 20000000) ∧
    isOkE (vcombiner badChoices none none) = false ∧
    isOkE (vcombiner goodChoices none none) = true := by
  refine ⟨vcombiner_isOk_iff cs tau omega, ?_, ?_⟩
  · have h : ¬ (isOkE (vcombiner badChoices none none) = true) := by
      rw [vcombiner_isOk_iff]
      simp only [badChoices, List.map_cons, List.map_nil, List.sum_cons,
        List.sum_nil, abs_sub_lt_iff]
      norm_num
    cases hb : isOkE (vcombiner badChoices none none)
    · rfl
    · exact absurd hb h
  · rw [vcombiner_isOk_iff]
    simp only [goodChoices, List.map_cons, List.map_nil, List.sum_cons,
      List.sum_nil, abs_sub_lt_iff]
    norm_num

/-- C6: for every linear combination accepted by the weight check, the
combinator partitions the component indices into classes of exactly equal
a-triples (uniform a within a class, every index covered, classes
overlapping only if identical); within each class the intermediate dummy
phase function has legcoefs and expression evaluating to the weighted sums
of its members' and ncoefs equal to the class maximum (it bounds every
member and is attained by one); and the combined object's legexpansion is
the sum over the classes of the per-class expansion results. -/
theorem vcombiner_partitions_and_sums (cs : List Vchoice)
    (tau omega : Option ℚ)
    (hw : assertAlmostEqual7 1 ((cs.map (fun V => V.1)).sum) = true)
    (hpos : ∀ V ∈ cs, 0 < V.2.ncoefs)
    (t_0 t_ex p_0 p_ex : ℚ) (geo : Geometry) :
    ∃ comb, vcombiner cs tau omega = Except.ok comb ∧
      (∀ c ∈ vclasses cs, ∀ i ∈ c, ∀ j ∈ c, aAt cs i = aAt cs j) ∧
      (∀ i, i < cs.length → ∃ c, c ∈ vclasses cs ∧ i ∈ c) ∧
      (∀ c1 ∈ vclasses cs, ∀ c2 ∈ vclasses cs, ∀ i, i ∈ c1 → i ∈ c2 →
        c1 = c2) ∧
      (∀ c ∈ vclasses cs,
        (∀ env, ((classDummy cs c).legcoefs).eval env =
          ((classMembers cs c).map
            (fun V => (V.2.legcoefs).eval env * (V.1 : ℝ))).sum) ∧
        (∀ env, ((classDummy cs c).func).eval env =
          ((classMembers cs c).map
            (fun V => (V.2.func).eval env * (V.1 : ℝ))).sum) ∧
        (∀ V ∈ classMembers cs c, V.2.ncoefs ≤ (classDummy cs c).ncoefs) ∧
        (∃ V ∈ classMembers cs c, (classDummy cs c).ncoefs = V.2.ncoefs)) ∧
      comb.legexp t_0 t_ex p_0 p_ex geo =
        Except.ok (npSum ((vclasses cs).map
          (fun c => legexpSpec (classDummy cs c) (theta0Of geo t_0)
            (phi0Of geo p_0)))) := by
  refine ⟨{ ncoefs := maxNcoefs cs
            legcoefs := .num 0
            func := wsum (fun V => V.2.func) cs
            tau := tau
            omega := omega
            legexp := combLegexp cs }, ?_, ?_, ?_, ?_, ?_, ?_⟩
  · simp [vcombiner, hw]
  · -- uniform a within a class
    intro c hc i hi j hj
    rcases (mem_vclasses cs c).mp hc with ⟨V, _, rfl⟩
    rw [(mem_allIdx cs V.2.a i).mp hi, (mem_allIdx cs V.2.a j).mp hj]
  · -- every index covered
    intro i hlt
    refine ⟨allIdx cs (cs[i].2.a), ?_, ?_⟩
    · exact (mem_vclasses cs _).mpr ⟨cs[i], List.getElem_mem hlt, rfl⟩
    · rw [mem_allIdx, aAt, List.getElem?_eq_getElem hlt]
      rfl
  · -- classes intersect only if equal
    intro c1 hc1 c2 hc2 i hi1 hi2
    rcases (mem_vclasses cs c1).mp hc1 with ⟨V1, _, rfl⟩
    rcases (mem_vclasses cs c2).mp hc2 with ⟨V2, _, rfl⟩
    have h1 := (mem_allIdx cs V1.2.a i).mp hi1
    have h2 := (mem_allIdx cs V2.2.a i).mp hi2
    have : V1.2.a = V2.2.a := by
      rw [h1] at h2
      exact Option.some.inj h2
    rw [this]
  · -- per-class weighted sums and maximum ncoefs
    intro c hc
    refine ⟨fun env => ?_, fun env => ?_, fun V hV => ?_, ?_⟩
    · exact eval_wsum (fun V => V.2.legcoefs) (classMembers cs c) env
    · exact eval_wsum (fun V => V.2.func) (classMembers cs c) env
    · exact mem_le_foldl_maxN (classMembers cs c) 0 V hV
    · -- the maximum is attained by a member
      have hne : ∃ V, V ∈ classMembers cs c := by
        rcases (mem_vclasses cs c).mp hc with ⟨V, hV, rfl⟩
        rcases List.mem_iff_getElem?.mp hV with ⟨i, hi⟩
        have hic : i ∈ allIdx cs V.2.a := by
          rw [mem_allIdx, aAt, hi]
          rfl
        exact ⟨V, List.mem_filterMap.mpr ⟨i, hic, hi⟩⟩
      rcases foldl_maxN_eq_init_or_mem (classMembers cs c) 0 with h0 | hm
      · rcases hne with ⟨V, hV⟩
        refine ⟨V, hV, ?_⟩
        have hle := mem_le_foldl_maxN (classMembers cs c) 0 V hV
        rw [h0] at hle
        show (classMembers cs c).foldl (fun m V => max m V.2.ncoefs) 0 =
          V.2.ncoefs
        rw [h0]
        omega
      · rcases hm with ⟨V, hV, hVeq⟩
        exact ⟨V, hV, hVeq⟩
  · -- the combined legexpansion is the sum over classes
    show combLegexp cs t_0 t_ex p_0 p_ex geo = _
    rw [combLegexp, mapM_ok (vclasses cs)
      (fun c => legexpansionV (classDummy cs c) t_0 t_ex p_0 p_ex geo)
      (fun c => legexpSpec (classDummy cs c) (theta0Of geo t_0)
        (phi0Of geo p_0))
      (fun c hc => legexpansionV_ok (classDummy cs c)
        (classDummy_ncoefs_pos cs c hc hpos) t_0 t_ex p_0 p_ex geo)]
    rfl

/-- Witness for C6 at a two-component, two-class combination (Rayleigh with
a = (-1,1,1) and Henyey-Greenstein with a = (1,1,1), weights 1/2 each). -/
theorem vcombiner_partitions_and_sums_witness :
    (assertAlmostEqual7 1 ((lcWitnessChoices.map (fun V => V.1)).sum) =
      true) ∧
    (∀ V ∈ lcWitnessChoices, 0 < V.2.ncoefs) ∧
    (∃ comb, vcombiner lcWitnessChoices none none = Except.ok comb ∧
      (∀ c ∈ vclasses lcWitnessChoices, ∀ i ∈ c, ∀ j ∈ c,
        aAt lcWitnessChoices i = aAt lcWitnessChoices j) ∧
      (∀ i, i < lcWitnessChoices.length →
        ∃ c, c ∈ vclasses lcWitnessChoices ∧ i ∈ c) ∧
      (∀ c1 ∈ vclasses lcWitnessChoices, ∀ c2 ∈ vclasses lcWitnessChoices,
        ∀ i, i ∈ c1 → i ∈ c2 → c1 = c2) ∧
      (∀ c ∈ vclasses lcWitnessChoices,
        (∀ env, ((classDummy lcWitnessChoices c).legcoefs).eval env =
          ((classMembers lcWitnessChoices c).map
            (fun V => (V.2.legcoefs).eval env * (V.1 : ℝ))).sum) ∧
        (∀ env, ((classDummy lcWitnessChoices c).func).eval env =
          ((classMembers lcWitnessChoices c).map
            (fun V => (V.2.func).eval env * (V.1 : ℝ))).sum) ∧
        (∀ V ∈ classMembers lcWitnessChoices c,
          V.2.ncoefs ≤ (classDummy lcWitnessChoices c).ncoefs) ∧
        (∃ V ∈ classMembers lcWitnessChoices c,
          (classDummy lcWitnessChoices c).ncoefs = V.2.ncoefs)) ∧
      comb.legexp (1/10) (2/10) (3/10) (4/10) Geometry.mono =
        Except.ok (npSum ((vclasses lcWitnessChoices).map
          (fun c => legexpSpec (classDummy lcWitnessChoices c)
            (theta0Of Geometry.mono (1/10))
            (phi0Of Geometry.mono (3/10)))))) :=
  ⟨by norm_num [assertAlmostEqual7, lcWitnessChoices, abs_sub_lt_iff],
    by decide,
    vcombiner_partitions_and_sums lcWitnessChoices none none
      (by norm_num [assertAlmostEqual7, lcWitnessChoices, abs_sub_lt_iff])
      (by decide) (1/10) (2/10) (3/10) (4/10) Geometry.mono⟩
